import Mathlib

set_option maxHeartbeats 1000000

/-!
Shallow embedding of the simdex discovery-and-sync cache engine
(src/core/{entry,db,discovery,collection,types}.rs and src/api/mod.rs, the
canonical serialized-blob, uid-keyed variant).

Modelling conventions:
* timestamps (chrono instants) are `Int`; the rfc3339 text codec of chrono is
  passed in as `fmt : Int → String` (`to_rfc3339`) and `parse : String → Option Int`
  (`DateTime::parse_from_rfc3339`), since the claims depend only on the control
  flow around them;
* the serde_json decode of the `created_at` type envelope is an argument
  `pw : String → Option TypeWrapper` (`serde_json::from_str::<TypeWrapper>`);
* HDF5 attributes are their read outcomes: `attr.read_scalar::<T>()` either
  succeeds or fails, modelled by the three `Option` readers of `H5Attr`;
* the SQLite tables are lists of rows; `parameters_json` stores the decoded
  parameter map itself (`serde_json::to_string` of a given map is abstracted
  away: the claims never inspect the JSON text);
* filesystem errors that the type system can represent (missing file, file
  where a directory is expected) are modelled; device-level I/O faults are not.
-/

namespace Simdex

/-- Decoded parameter values, the subset of `serde_json::Value` produced by the
probe in `load_entry_meta` (`Value::from` on `i64`, `f64`, string). `f64` is
modelled by `Rat`. -/
inductive Value where
  | int : Int → Value
  | float : Rat → Value
  | str : String → Value
deriving DecidableEq

/-- Models `Parameters = HashMap<String, Value>` (src/core/types.rs), as an
association list. -/
abbrev Parameters := List (String × Value)

/-- Models `HashMap::insert`: replace the value of an existing key, else add the
binding. -/
def paramsInsert (ps : Parameters) (k : String) (v : Value) : Parameters :=
  if ps.any (fun q => q.1 == k) then
    ps.map (fun q => if q.1 == k then (k, v) else q)
  else ps ++ [(k, v)]

/-- Models `MetaData` (src/core/types.rs). -/
structure MetaData where
  created_at : Int
  description : String
  status : String
  submitted : Bool
deriving DecidableEq

/-- The `{"__type__": tag, "__value__": value}` JSON envelope
(`TypeWrapper` in src/core/entry.rs; `tag` is the `__type__` field). -/
structure TypeWrapper where
  tag : String
  value : String
deriving DecidableEq

/-- One HDF5 attribute in the `.parameters` group: the outcomes of
`read_scalar::<i64>()`, `read_scalar::<f64>()`,
`read_scalar::<VarLenUnicode>()` on it. -/
structure H5Attr where
  readI64 : Option Int
  readF64 : Option Rat
  readStr : Option String
deriving DecidableEq

/-- The root group of an entry's `data.h5`: the outcomes of the fixed
attribute reads done by `load_entry_meta`. `none` = the attribute is missing
or its `read_scalar` fails. `paramAttrs` is the `.parameters` group
(`none` if the group is absent) with, for each attribute name, the outcome of
`params_group.attr(name)` (a `none` handle makes the whole entry fail via
`?`). -/
structure Container where
  created_at : Option String
  description : Option String
  status : Option String
  submitted : Option Bool
  paramAttrs : Option (List (String × Option H5Attr))
deriving DecidableEq

/-- One discovered entry directory: its basename, the opened `data.h5`
(`none` if `File::open` or `group("/")` fails) and the file's mtime
(`none` if `fs::metadata` or `modified()` fails, as in `get_data_h5_mtime`). -/
structure Entry where
  name : String
  container : Option Container
  mtime : Option Int
deriving DecidableEq

/-- Models `parse_datetime_field` (src/core/entry.rs:30): decode the JSON envelope,
require tag `"datetime"`, parse the value as rfc3339 and, failing that, parse
the value with `"Z"` appended. -/
def parseDatetimeField (pw : String → Option TypeWrapper)
    (parse : String → Option Int) (val : String) : Option Int :=
  match pw val with
  | some w =>
      if w.tag = "datetime" then
        match parse w.value with
        | some t => some t
        | none => parse (w.value ++ "Z")
      else none
  | none => none

/-- The type probe of the parameters loop (src/core/entry.rs:93):
`read_scalar::<i64>`, else `read_scalar::<f64>`, else string; `none` =
`continue` (unsupported type, dropped). -/
def decodeParamValue (a : H5Attr) : Option Value :=
  match a.readI64 with
  | some i => some (Value.int i)
  | none =>
      match a.readF64 with
      | some q => some (Value.float q)
      | none =>
          match a.readStr with
          | some s => some (Value.str s)
          | none => none

/-- The `for attr_name in params_group.attr_names()` loop: a failing attr
handle aborts the whole entry (`.ok()?`), an unsupported type is skipped,
otherwise the decoded value is inserted into the map. -/
def decodeParamsAux (acc : Parameters) :
    List (String × Option H5Attr) → Option Parameters
  | [] => some acc
  | (_, none) :: _ => none
  | (n, some a) :: rest =>
      match decodeParamValue a with
      | some v => decodeParamsAux (paramsInsert acc n v) rest
      | none => decodeParamsAux acc rest

/-- Models `load_entry_meta` (src/core/entry.rs:43). `created_at` falls back to
`DateTime::from_timestamp_nanos(0)` (the epoch, modelled as `0`) when
`parse_datetime_field` fails; `submitted` defaults to `false`; every other
failure returns `none` (the entry is skipped by the caller). -/
def loadEntryMeta (pw : String → Option TypeWrapper)
    (parse : String → Option Int) (e : Entry) :
    Option (MetaData × Parameters) :=
  match e.container with
  | none => none
  | some c =>
    match c.created_at with
    | none => none
    | some caStr =>
      let created : Int :=
        match parseDatetimeField pw parse caStr with
        | some t => t
        | none => 0
      match c.description with
      | none => none
      | some desc =>
        match c.status with
        | none => none
        | some st =>
          match c.paramAttrs with
          | none => none
          | some pas =>
            match decodeParamsAux [] pas with
            | none => none
            | some ps =>
                some ({ created_at := created, description := desc,
                        status := st, submitted := c.submitted.getD false },
                      ps)

/-- One row of the `simulations` table (src/core/db.rs:14). `submitted` is
the stored INTEGER (`meta.submitted as i32`), `parameters` the serialized
map, `lastSyncTime` the nullable `_last_sync_time` TEXT column. -/
structure SimRow where
  id : Int
  collection_uid : String
  name : String
  created_at : String
  description : String
  status : String
  submitted : Int
  parameters : Parameters
  lastSyncTime : Option String
deriving DecidableEq

/-- The cache database: the two tables of `open_or_init` plus the
AUTOINCREMENT counter of `simulations.id`. -/
structure Db where
  collections : List (String × String)
  simulations : List SimRow
  nextId : Int
deriving DecidableEq

/-- Models `open_or_init` on a fresh file: both tables exist and are empty. -/
def Db.init : Db := { collections := [], simulations := [], nextId := 1 }

/-- The row predicate of `WHERE collection_uid = ?1 AND name = ?2`. -/
def keyMatch (cuid name : String) (r : SimRow) : Bool :=
  r.collection_uid == cuid && r.name == name

/-- Models `query_row` on the unique key: the first matching row. -/
def findRow (db : Db) (cuid name : String) : Option SimRow :=
  db.simulations.find? (keyMatch cuid name)

/-- Models `get_sim_sync_time` (src/core/db.rs:55): absent row, NULL column and an
unparseable timestamp text all yield `none`. -/
def getSimSyncTime (parse : String → Option Int) (db : Db)
    (cuid name : String) : Option Int :=
  match findRow db cuid name with
  | none => none
  | some r =>
      match r.lastSyncTime with
      | none => none
      | some s => parse s

/-- Models `upsert_collection` (src/core/db.rs:74): `INSERT OR REPLACE` deletes any
row with the uid and inserts the new one. -/
def upsertCollection (db : Db) (uid path : String) : Db :=
  { db with collections :=
      db.collections.filter (fun c => c.1 != uid) ++ [(uid, path)] }

/-- Models `meta.submitted as i32`. -/
def boolToInt (b : Bool) : Int := if b then 1 else 0

/-- Replace the first row satisfying `p` (the single row hit by
`ON CONFLICT ... DO UPDATE` under the UNIQUE constraint). -/
def updateFirst (p : SimRow → Bool) (f : SimRow → SimRow) :
    List SimRow → List SimRow
  | [] => []
  | r :: rs => if p r then f r :: rs else r :: updateFirst p f rs

/-- The mutable fields written by `upsert_simulation` for metadata `m`,
parameters `ps` and write-time wall clock `now`. -/
def writeFields (fmt : Int → String) (now : Int) (m : MetaData)
    (ps : Parameters) (r : SimRow) : SimRow :=
  { r with created_at := fmt m.created_at, description := m.description,
           status := m.status, submitted := boolToInt m.submitted,
           parameters := ps, lastSyncTime := some (fmt now) }

/-- Models `upsert_simulation` (src/core/db.rs:82): insert, or on conflict update all
mutable fields of the existing row; `_last_sync_time` is set to
`Local::now().to_rfc3339()` (the argument `now`), and the returned id is that
of the row selected by the key afterwards. -/
def upsertSimulation (fmt : Int → String) (now : Int) (db : Db)
    (cuid name : String) (m : MetaData) (ps : Parameters) : Db × Int :=
  match findRow db cuid name with
  | some r =>
      let rows :=
        updateFirst (keyMatch cuid name) (writeFields fmt now m ps)
          db.simulations
      ({ db with simulations := rows }, r.id)
  | none =>
      let nr : SimRow :=
        { id := db.nextId, collection_uid := cuid, name := name,
          created_at := fmt m.created_at, description := m.description,
          status := m.status, submitted := boolToInt m.submitted,
          parameters := ps, lastSyncTime := some (fmt now) }
      ({ db with simulations := db.simulations ++ [nr],
                 nextId := db.nextId + 1 },
       db.nextId)

/-- Rust `Option<T> : Ord` restricted to `<` on `Option<DateTime<Local>>`:
`None < Some _`, and `Some a < Some b ↔ a < b`. -/
def optLt (a b : Option Int) : Bool :=
  match a, b with
  | none, none => false
  | none, some _ => true
  | some _, none => false
  | some x, some y => decide (x < y)

/-- One collection as the scan sees it: the pair from `find_all` plus the
entry list from `find_entries`. -/
structure FsCollection where
  path : String
  uid : String
  entries : List Entry
deriving DecidableEq

/-- The per-entry body of the scan loop (src/api/mod.rs:157-192): read the
watermark, read the mtime (`continue` when unavailable), `continue` when
`Some(mtime) < last_sync_time`, else decode and upsert (`continue` with a
warning when decoding fails). -/
def stepEntry (parse : String → Option Int) (fmt : Int → String)
    (pw : String → Option TypeWrapper) (now : Int) (cuid : String)
    (db : Db) (e : Entry) : Db :=
  let lastSync := getSimSyncTime parse db cuid e.name
  match e.mtime with
  | none => db
  | some mt =>
      if optLt (some mt) lastSync then db
      else
        match loadEntryMeta pw parse e with
        | some (m, ps) => (upsertSimulation fmt now db cuid e.name m ps).1
        | none => db

/-- The per-collection body of the scan loop: upsert the collection row, then
fold over its entries. -/
def stepCollection (parse : String → Option Int) (fmt : Int → String)
    (pw : String → Option TypeWrapper) (now : Int) (db : Db)
    (c : FsCollection) : Db :=
  c.entries.foldl (stepEntry parse fmt pw now c.uid)
    (upsertCollection db c.uid c.path)

/-- Models `scan` (src/api/mod.rs:144) over the discovered collections, with `now`
standing for the wall clock read at the writes of this run. -/
def scan (parse : String → Option Int) (fmt : Int → String)
    (pw : String → Option TypeWrapper) (now : Int)
    (fs : List FsCollection) (db : Db) : Db :=
  fs.foldl (stepCollection parse fmt pw now) db

/-- The `(collection_uid, entry name)` keys of one collection's entries. -/
def entryKeys (cuid : String) (es : List Entry) : List (String × String) :=
  es.map (fun e => (cuid, e.name))

/-- The `(collection_uid, entry name)` keys an fs layout makes the scan
touch. -/
def fsKeys (fs : List FsCollection) : List (String × String) :=
  (fs.map (fun c => entryKeys c.uid c.entries)).flatten

/-- A row with its `_last_sync_time` erased: the content the idempotence
property compares. -/
def rowContent (r : SimRow) : SimRow := { r with lastSyncTime := none }

/-- The tuple of mutable non-watermark fields of a row. -/
def rowFields (r : SimRow) : String × String × String × Int × Parameters :=
  (r.created_at, r.description, r.status, r.submitted, r.parameters)

/-- The field tuple `upsert_simulation` writes for `(m, ps)`. -/
def metaFields (fmt : Int → String) (m : MetaData) (ps : Parameters) :
    String × String × String × Int × Parameters :=
  (fmt m.created_at, m.description, m.status, boolToInt m.submitted, ps)

/-- The `(collection_uid, name)` keys of the simulations table, in row
order. -/
def dbKeys (db : Db) : List (String × String) :=
  db.simulations.map (fun r => (r.collection_uid, r.name))

/-- A sequence of `upsertEntry` operations, each with its own write-time wall
clock. -/
def applyOps (fmt : Int → String)
    (ops : List (Int × String × String × MetaData × Parameters)) (db : Db) :
    Db :=
  ops.foldl
    (fun db op =>
      (upsertSimulation fmt op.1 db op.2.1 op.2.2.1 op.2.2.2.1
        op.2.2.2.2).1)
    db

/-- A collection with the entries whose decode fails removed. -/
def dropUndecodable (pw : String → Option TypeWrapper)
    (parse : String → Option Int) (c : FsCollection) : FsCollection :=
  { c with entries :=
      c.entries.filter (fun e => (loadEntryMeta pw parse e).isSome) }

/-- The simulations table up to `_last_sync_time`: the content the
idempotence property compares. -/
def contentMap (db : Db) : List SimRow := db.simulations.map rowContent

/-- The per-entry invariant a completed sync run leaves behind: every
decodable entry with a readable mtime is either bound to be skipped by the
next run, or its cached row already carries exactly the decoded fields. -/
def entryOk (parse : String → Option Int) (fmt : Int → String)
    (pw : String → Option TypeWrapper) (db : Db) (cuid : String)
    (e : Entry) : Prop :=
  ∀ mt, e.mtime = some mt → ∀ mp, loadEntryMeta pw parse e = some mp →
    optLt (some mt) (getSimSyncTime parse db cuid e.name) = true ∨
    ∃ r, findRow db cuid e.name = some r ∧
      rowFields r = metaFields fmt mp.1 mp.2

/-! ### Concrete fixtures used by witnesses and counterexamples -/

/-- Concrete rfc3339 stand-in codec for witnesses: a small decimal table
(kernel-reducible, unlike `String.toInt?`). -/
def exParse : String → Option Int := fun s =>
  if s = "5" then some 5
  else if s = "7" then some 7
  else if s = "9" then some 9
  else none

/-- Concrete formatter matching `exParse` on the values the witnesses use. -/
def exFmt : Int → String := fun i =>
  if i = 5 then "5" else if i = 7 then "7" else if i = 9 then "9" else "?"

/-- A concrete envelope decoder that always fails (no claim witness needs a
successful JSON decode of the envelope). -/
def exPw : String → Option TypeWrapper := fun _ => none

/-- A cached row with watermark text "5" and stale field values. -/
def exRow : SimRow :=
  { id := 1, collection_uid := "c", name := "e", created_at := "x",
    description := "x", status := "x", submitted := 0, parameters := [],
    lastSyncTime := some "5" }

/-- A one-row database holding `exRow`. -/
def exDb : Db := { collections := [], simulations := [exRow], nextId := 2 }

/-- A decodable container (created_at envelope unparseable, so the epoch
fallback fires; no parameters). -/
def exContainer : Container :=
  { created_at := some "t", description := some "d", status := some "s",
    submitted := some true, paramAttrs := some [] }

/-- A decodable entry named "e" whose `data.h5` mtime is 5, i.e. exactly the
watermark stored in `exRow`. -/
def exEntry : Entry :=
  { name := "e", container := some exContainer, mtime := some 5 }

/-- The same entry with a strictly smaller mtime. -/
def exEntryOld : Entry :=
  { name := "e", container := some exContainer, mtime := some 4 }

/-- An undecodable entry: `data.h5` cannot be opened. -/
def exEntryBad : Entry :=
  { name := "b", container := none, mtime := some 9 }

/-- A one-collection layout containing `exEntry` and `exEntryBad`. -/
def exFs : List FsCollection :=
  [{ path := "p", uid := "c", entries := [exEntry, exEntryBad] }]

/-! ## Filesystem model for discovery (src/core/discovery.rs) -/

/-- A filesystem node: a regular file with its content, or a directory with
its named children. -/
inductive FsNode where
  | file : String → FsNode
  | dir : List (String × FsNode) → FsNode

/-- Models `META_FILE_PREFIX` (".bamboost-collection-"). -/
def metaPre : String := ".bamboost-collection-"

/-- Models `str::strip_prefix`, on the character lists of the strings. -/
def strDropPre (p s : String) : Option String :=
  if List.isPrefixOf p.data s.data then some ⟨s.data.drop p.data.length⟩
  else none

/-- Models `uid_raw.strip_suffix(".yml").unwrap_or(uid_raw)`. -/
def dropYml (s : String) : String :=
  if List.isSuffixOf ".yml".data s.data then
    ⟨s.data.take (s.data.length - 4)⟩
  else s

/-- The uid a filename yields in `find_all`:
`strip_prefix(META_FILE_PREFIX)` then optional `.yml` removal. -/
def markerOf (name : String) : Option String :=
  (strDropPre metaPre name).map dropYml

/-- Index of the last occurrence of `c` in the list, if any. -/
def lastIdxOf (c : Char) : List Char → Option Nat
  | [] => none
  | x :: xs =>
      match lastIdxOf c xs with
      | some i => some (i + 1)
      | none => if x = c then some 0 else none

/-- Models `Path::file_stem` on a single filename: everything before the last `.`,
where a leading `.` (hidden file) does not count as a separator. -/
def stemOf (n : List Char) : List Char :=
  match n with
  | [] => []
  | _ :: t =>
      match lastIdxOf '.' t with
      | none => n
      | some i => n.take (i + 1)

/-- The marker filename written by `create_identifier`:
`path.join(format!("{}{}", META_FILE_PREFIX, uid)).with_extension("yml")`,
i.e. the stem of `META_FILE_PREFIX ++ uid` with `.yml` appended. -/
def markerFileName (uid : String) : String :=
  ⟨stemOf (metaPre ++ uid).data ++ ".yml".data⟩

/-- The walk of `find_all` below one directory's children: `fuel` is the
remaining depth budget (files are yielded while `fuel ≥ 1`, matching
`max_depth(5)`); a file whose name bears the marker form yields
`(parent path, uid)`; directories are entered with one less level. -/
def walkChildren : Nat → List String → List (String × FsNode) →
    List (List String × String)
  | _, _, [] => []
  | 0, _, _ :: _ => []
  | fuel + 1, base, (n, FsNode.file _) :: rest =>
      (match markerOf n with
       | some uid => [(base, uid)]
       | none => []) ++ walkChildren (fuel + 1) base rest
  | fuel + 1, base, (n, FsNode.dir ch) :: rest =>
      walkChildren fuel (base ++ [n]) ch ++ walkChildren (fuel + 1) base rest
termination_by fuel _ l => (fuel, l.length)

/-- Models `find_all` (src/core/discovery.rs:114): marker files at most 5 levels
below `root`, as `(parent directory, uid)` pairs; parent paths are relative
to `root`. `min_depth(1)` excludes the root itself. -/
def findAll (root : FsNode) : List (List String × String) :=
  match root with
  | FsNode.file _ => []
  | FsNode.dir ch => walkChildren 5 [] ch

/-- First child with the given name. -/
def findChild (ch : List (String × FsNode)) (k : String) : Option FsNode :=
  (ch.find? (fun c => c.1 == k)).map (fun c => c.2)

/-- Resolve a path from a node. -/
def lookupNode : FsNode → List String → Option FsNode
  | n, [] => some n
  | FsNode.file _, _ :: _ => none
  | FsNode.dir ch, k :: rest =>
      match findChild ch k with
      | some sub => lookupNode sub rest
      | none => none

/-- There is a regular file named `name` in the directory reached by `p`. -/
def hasFile : FsNode → List String → String → Prop
  | FsNode.dir ch, [], name => ∃ s, (name, FsNode.file s) ∈ ch
  | FsNode.dir ch, k :: rest, name => ∃ sub, (k, sub) ∈ ch ∧ hasFile sub rest name
  | FsNode.file _, _, _ => False

/-- Replace the first child named `k`. -/
def replaceChild (ch : List (String × FsNode)) (k : String) (sub : FsNode) :
    List (String × FsNode) :=
  match ch with
  | [] => []
  | c :: cs => if c.1 == k then (k, sub) :: cs else c :: replaceChild cs k sub

/-- Models `fs::create_dir_all`: create every missing directory of the path;
fails (`none`) when an existing file stands where a directory is needed. -/
def createDirAll : FsNode → List String → Option FsNode
  | FsNode.file _, _ => none
  | FsNode.dir ch, [] => some (FsNode.dir ch)
  | FsNode.dir ch, k :: rest =>
      match findChild ch k with
      | some sub =>
          (createDirAll sub rest).map (fun sub2 => FsNode.dir (replaceChild ch k sub2))
      | none =>
          (createDirAll (FsNode.dir []) rest).map
            (fun sub2 => FsNode.dir (ch ++ [(k, sub2)]))

/-- Models `fs::write` of a new file into the directory at `p`. -/
def insertFileAt : FsNode → List String → String → String → Option FsNode
  | FsNode.dir ch, [], name, content =>
      some (FsNode.dir (ch ++ [(name, FsNode.file content)]))
  | FsNode.dir ch, k :: rest, name, content =>
      match findChild ch k with
      | some sub =>
          (insertFileAt sub rest name content).map
            (fun sub2 => FsNode.dir (replaceChild ch k sub2))
      | none => none
  | FsNode.file _, _, _, _ => none

/-- The error kinds `new_collection` can return: the two distinguishable
conflict kinds (`AlreadyExists` for an existing non-directory,
`DirectoryNotEmpty` for an existing non-empty directory) and the generic
I/O failure of `create_dir_all`/`fs::write`. -/
inductive NcErr where
  | alreadyExists
  | dirNotEmpty
  | ioErr
deriving DecidableEq

/-- The serialized `MetaFile` yaml; its content (uid, created timestamp,
optional author) is opaque to every claim, so it is abstracted to a fixed
string. -/
def markerContent : String := "yaml"

/-- Models `new_collection` (src/core/discovery.rs:60): conflict checks first, then
`create_dir_all` when the path is absent, then `create_identifier` writes the
marker file. An error result models the run that returns before mutating the
filesystem (both conflict branches precede every write, and in this model
`create_dir_all` creates nothing when it fails). -/
def newCollection (root : FsNode) (path : List String) (uid : String) :
    Except NcErr FsNode :=
  match lookupNode root path with
  | some (FsNode.file _) => Except.error NcErr.alreadyExists
  | some (FsNode.dir ch) =>
      if ch.isEmpty then
        match insertFileAt root path (markerFileName uid) markerContent with
        | some r => Except.ok r
        | none => Except.error NcErr.ioErr
      else Except.error NcErr.dirNotEmpty
  | none =>
      match createDirAll root path with
      | some root1 =>
          match insertFileAt root1 path (markerFileName uid) markerContent with
          | some r => Except.ok r
          | none => Except.error NcErr.ioErr
      | none => Except.error NcErr.ioErr

/-! ## Lemmas -/

theorem keyMatch_iff (cuid name : String) (r : SimRow) :
    keyMatch cuid name r = true ↔
      r.collection_uid = cuid ∧ r.name = name := by
  simp [keyMatch]

theorem keyMatch_writeFields (cuid name : String) (fmt : Int → String)
    (now : Int) (m : MetaData) (ps : Parameters) (r : SimRow) :
    keyMatch cuid name (writeFields fmt now m ps r) = keyMatch cuid name r :=
  rfl

theorem keyMatch_disjoint {c n c' n' : String} (h : (c', n') ≠ (c, n))
    (r : SimRow) (hr : keyMatch c n r = true) : keyMatch c' n' r = false := by
  rcases (keyMatch_iff c n r).1 hr with ⟨h1, h2⟩
  by_contra hq
  rcases (keyMatch_iff c' n' r).1 (by simpa using hq) with ⟨h1', h2'⟩
  exact h (by simp [← h1, ← h2, ← h1', ← h2'])

theorem updateFirst_length (p : SimRow → Bool) (f : SimRow → SimRow)
    (l : List SimRow) : (updateFirst p f l).length = l.length := by
  induction l with
  | nil => rfl
  | cons r rs ih =>
      by_cases h : p r = true <;> simp [updateFirst, h, ih]

theorem find?_updateFirst_other (p q : SimRow → Bool) (f : SimRow → SimRow)
    (l : List SimRow) (hpq : ∀ r, p r = true → q r = false)
    (hf : ∀ r, q (f r) = q r) :
    (updateFirst p f l).find? q = l.find? q := by
  induction l with
  | nil => rfl
  | cons r rs ih =>
      by_cases h : p r = true
      · simp [updateFirst, h, List.find?_cons, hf r, hpq r h]
      · simp only [updateFirst, h, if_false]
        by_cases hq : q r = true <;> simp [List.find?_cons, hq, ih]

theorem find?_updateFirst_self (p : SimRow → Bool) (f : SimRow → SimRow)
    (l : List SimRow) (r : SimRow) (hl : l.find? p = some r)
    (hf : ∀ s, p (f s) = p s) :
    (updateFirst p f l).find? p = some (f r) := by
  induction l with
  | nil => simp at hl
  | cons a rs ih =>
      by_cases h : p a = true
      · simp [List.find?_cons, h] at hl
        subst hl
        simp [updateFirst, h, List.find?_cons, hf a]
      · simp [List.find?_cons, h] at hl
        simp [updateFirst, h, List.find?_cons, ih hl]

theorem map_key_updateFirst (p : SimRow → Bool) (f : SimRow → SimRow)
    (l : List SimRow)
    (hf : ∀ r, (f r).collection_uid = r.collection_uid ∧ (f r).name = r.name) :
    (updateFirst p f l).map (fun r => (r.collection_uid, r.name)) =
      l.map (fun r => (r.collection_uid, r.name)) := by
  induction l with
  | nil => rfl
  | cons r rs ih =>
      by_cases h : p r = true <;>
        simp [updateFirst, h, ih, (hf r).1, (hf r).2]

theorem map_rowContent_updateFirst (p : SimRow → Bool) (f : SimRow → SimRow)
    (l : List SimRow) (r : SimRow) (hl : l.find? p = some r)
    (hr : rowContent (f r) = rowContent r) :
    (updateFirst p f l).map rowContent = l.map rowContent := by
  induction l with
  | nil => rfl
  | cons a rs ih =>
      by_cases h : p a = true
      · simp [List.find?_cons, h] at hl
        subst hl
        simp [updateFirst, h, hr]
      · simp [List.find?_cons, h] at hl
        simp [updateFirst, h, ih hl]

/-- After an upsert at a key, the first row found at that key carries exactly
the written fields, the fresh watermark, and the returned id. -/
theorem findRow_upsert_self (fmt : Int → String) (now : Int) (db : Db)
    (cuid name : String) (m : MetaData) (ps : Parameters) :
    ∃ r2, findRow (upsertSimulation fmt now db cuid name m ps).1 cuid name
        = some r2 ∧
      rowFields r2 = metaFields fmt m ps ∧
      r2.lastSyncTime = some (fmt now) ∧
      (upsertSimulation fmt now db cuid name m ps).2 = r2.id := by
  cases hf : findRow db cuid name with
  | some r =>
      refine ⟨writeFields fmt now m ps r, ?_, ?_, rfl, ?_⟩
      · simp only [upsertSimulation, hf]
        unfold findRow at hf ⊢
        simpa using find?_updateFirst_self (keyMatch cuid name)
          (writeFields fmt now m ps) db.simulations r hf
          (fun s => keyMatch_writeFields cuid name fmt now m ps s)
      · simp [rowFields, writeFields, metaFields]
      · simp [upsertSimulation, hf, writeFields]
  | none =>
      refine ⟨{ id := db.nextId, collection_uid := cuid, name := name,
                created_at := fmt m.created_at, description := m.description,
                status := m.status, submitted := boolToInt m.submitted,
                parameters := ps, lastSyncTime := some (fmt now) },
              ?_, ?_, rfl, ?_⟩
      · simp only [upsertSimulation, hf]
        unfold findRow at hf ⊢
        simp only [List.find?_append, hf, Option.none_or]
        simp [List.find?_cons, keyMatch]
      · simp [rowFields, metaFields]
      · simp [upsertSimulation, hf]

/-- An upsert at one key does not change what any other key resolves to. -/
theorem findRow_upsert_other (fmt : Int → String) (now : Int) (db : Db)
    (cuid name : String) (m : MetaData) (ps : Parameters)
    {c' n' : String} (h : (c', n') ≠ (cuid, name)) :
    findRow (upsertSimulation fmt now db cuid name m ps).1 c' n'
      = findRow db c' n' := by
  cases hf : findRow db cuid name with
  | some r =>
      simp only [upsertSimulation, hf]
      unfold findRow
      exact find?_updateFirst_other (keyMatch cuid name) (keyMatch c' n')
        (writeFields fmt now m ps) db.simulations
        (fun r hr => keyMatch_disjoint h r hr)
        (fun r => keyMatch_writeFields c' n' fmt now m ps r)
  | none =>
      simp only [upsertSimulation, hf]
      unfold findRow
      simp only [List.find?_append]
      have hk : keyMatch c' n'
          { id := db.nextId, collection_uid := cuid, name := name,
            created_at := fmt m.created_at, description := m.description,
            status := m.status, submitted := boolToInt m.submitted,
            parameters := ps, lastSyncTime := some (fmt now) } = false :=
        keyMatch_disjoint h _ (by simp [keyMatch])
      simp [List.find?_cons, hk]

theorem findRow_upsertCollection (db : Db) (u p c' n' : String) :
    findRow (upsertCollection db u p) c' n' = findRow db c' n' := rfl

theorem getSimSyncTime_of_findRow (parse : String → Option Int)
    {db db' : Db} {cuid name : String}
    (h : findRow db' cuid name = findRow db cuid name) :
    getSimSyncTime parse db' cuid name = getSimSyncTime parse db cuid name := by
  unfold getSimSyncTime
  rw [h]

/-- The `stepEntry` body writes at most the key of its own entry. -/
theorem findRow_stepEntry_other (parse : String → Option Int)
    (fmt : Int → String) (pw : String → Option TypeWrapper) (now : Int)
    (cuid : String) (db : Db) (e : Entry) {c' n' : String}
    (h : (c', n') ≠ (cuid, e.name)) :
    findRow (stepEntry parse fmt pw now cuid db e) c' n'
      = findRow db c' n' := by
  unfold stepEntry
  cases e.mtime with
  | none => rfl
  | some mt =>
      by_cases hskip : optLt (some mt) (getSimSyncTime parse db cuid e.name) = true
      · simp [hskip]
      · simp only [Bool.not_eq_true] at hskip
        simp only [hskip, Bool.false_eq_true, if_false]
        cases hload : loadEntryMeta pw parse e with
        | none => rfl
        | some mp =>
            cases mp with
            | mk m ps => exact findRow_upsert_other fmt now db cuid e.name m ps h

/-! ## C1 -/

/-- C1 (amended): per discovered entry, the scan skips (no decode, no write)
exactly when the container mtime is strictly less than the stored watermark;
when no watermark exists, or the mtime is greater *or equal*, a decodable
entry is decoded and its row upserted. -/
theorem c1_change_detection (parse : String → Option Int)
    (fmt : Int → String) (pw : String → Option TypeWrapper) (now : Int)
    (db : Db) (cuid : String) (e : Entry) :
    (∀ mt w, e.mtime = some mt →
      getSimSyncTime parse db cuid e.name = some w → mt < w →
      stepEntry parse fmt pw now cuid db e = db) ∧
    (∀ mt mp, e.mtime = some mt → loadEntryMeta pw parse e = some mp →
      (getSimSyncTime parse db cuid e.name = none ∨
       ∃ w, getSimSyncTime parse db cuid e.name = some w ∧ w ≤ mt) →
      stepEntry parse fmt pw now cuid db e
        = (upsertSimulation fmt now db cuid e.name mp.1 mp.2).1) := by
  constructor
  · intro mt w hmt hw hlt
    unfold stepEntry
    rw [hmt, hw]
    simp [optLt, hlt]
  · intro mt mp hmt hload hw
    obtain ⟨m, ps⟩ := mp
    have hskip : optLt (some mt) (getSimSyncTime parse db cuid e.name) = false := by
      rcases hw with h | ⟨w, hw, hle⟩
      · rw [h]; rfl
      · rw [hw]; simp [optLt]; omega
    simp [stepEntry, hmt, hskip, hload]

/-- Witness for C1: at the concrete database `exDb` (watermark "5"), an
entry with mtime 4 is skipped. -/
theorem c1_change_detection_witness :
    stepEntry exParse exFmt exPw 7 "c" exDb exEntryOld = exDb :=
  (c1_change_detection exParse exFmt exPw 7 exDb "c" exEntryOld).1 4 5 rfl
    (by decide) (by decide)

/-- Counterexample to C1 as stated: with stored watermark 5 and mtime
exactly 5 (mtime *equal* to the watermark, hence not strictly greater), the
claim demands the entry be skipped with no cache write, but the code decodes
and upserts it: the resulting database differs from the original. -/
theorem c1_counterexample :
    stepEntry exParse exFmt exPw 7 "c" exDb exEntry ≠ exDb := by decide

/-! ## C2 -/

/-- C2: the parameter decoder probes `i64`, then `f64`, then string, the
first success wins — in particular an integer-readable value decodes as
integer even when float-readable — and an attribute readable as none of the
three is dropped from the loop without failing the entry. -/
theorem c2_type_probe_order (a : H5Attr) (acc : Parameters) (n : String)
    (rest : List (String × Option H5Attr)) :
    (∀ i, a.readI64 = some i → decodeParamValue a = some (Value.int i)) ∧
    (∀ q, a.readI64 = none → a.readF64 = some q →
      decodeParamValue a = some (Value.float q)) ∧
    (∀ s, a.readI64 = none → a.readF64 = none → a.readStr = some s →
      decodeParamValue a = some (Value.str s)) ∧
    (a.readI64 = none → a.readF64 = none → a.readStr = none →
      decodeParamValue a = none ∧
      decodeParamsAux acc ((n, some a) :: rest) = decodeParamsAux acc rest) := by
  refine ⟨?_, ?_, ?_, ?_⟩
  · intro i h; simp [decodeParamValue, h]
  · intro q h1 h2; simp [decodeParamValue, h1, h2]
  · intro s h1 h2 h3; simp [decodeParamValue, h1, h2, h3]
  · intro h1 h2 h3
    have hd : decodeParamValue a = none := by
      simp [decodeParamValue, h1, h2, h3]
    exact ⟨hd, by simp [decodeParamsAux, hd]⟩

/-- Witness for C2: a value readable as both integer 3 and float 3 decodes
as `int 3`, and an attribute readable as nothing is dropped. -/
theorem c2_type_probe_order_witness :
    decodeParamValue { readI64 := some 3, readF64 := some 3,
                       readStr := some "3" } = some (Value.int 3) ∧
    decodeParamsAux []
        [("k", some { readI64 := none, readF64 := none, readStr := none })]
      = decodeParamsAux [] [] :=
  ⟨(c2_type_probe_order
      { readI64 := some 3, readF64 := some 3, readStr := some "3" }
      [] "k" []).1 3 rfl,
   ((c2_type_probe_order
      { readI64 := none, readF64 := none, readStr := none }
      [] "k" []).2.2.2 rfl rfl rfl).2⟩

/-! ## C3 -/

/-- C3: `created_at` decoding requires the JSON envelope with tag
`"datetime"`; the value is parsed strictly and then retried with a trailing
`"Z"`; and when the whole parse fails the entry still decodes, with the fixed
epoch (0) substituted for `created_at`. -/
theorem c3_created_at_fallback (pw : String → Option TypeWrapper)
    (parse : String → Option Int) (val : String) :
    (pw val = none → parseDatetimeField pw parse val = none) ∧
    (∀ w, pw val = some w → w.tag ≠ "datetime" →
      parseDatetimeField pw parse val = none) ∧
    (∀ w t, pw val = some w → w.tag = "datetime" → parse w.value = some t →
      parseDatetimeField pw parse val = some t) ∧
    (∀ w t, pw val = some w → w.tag = "datetime" → parse w.value = none →
      parse (w.value ++ "Z") = some t →
      parseDatetimeField pw parse val = some t) ∧
    (∀ (e : Entry) (c : Container) desc st pas ps,
      e.container = some c → c.created_at = some val →
      parseDatetimeField pw parse val = none →
      c.description = some desc → c.status = some st →
      c.paramAttrs = some pas → decodeParamsAux [] pas = some ps →
      loadEntryMeta pw parse e
        = some ({ created_at := 0, description := desc, status := st,
                  submitted := c.submitted.getD false }, ps)) := by
  refine ⟨?_, ?_, ?_, ?_, ?_⟩
  · intro h; simp [parseDatetimeField, h]
  · intro w hw htag; simp [parseDatetimeField, hw, htag]
  · intro w t hw htag hp; simp [parseDatetimeField, hw, htag, hp]
  · intro w t hw htag hp hz; simp [parseDatetimeField, hw, htag, hp, hz]
  · intro e c desc st pas ps hc hca hfail hd hs hp hps
    simp [loadEntryMeta, hc, hca, hfail, hd, hs, hp, hps]

/-- Witness for C3: with an envelope decoder returning a wrong tag, parsing
fails and the concrete entry `exEntry` decodes with `created_at = 0`. -/
theorem c3_created_at_fallback_witness :
    parseDatetimeField (fun _ => some { tag := "date", value := "v" })
      exParse "t" = none ∧
    loadEntryMeta exPw exParse exEntry
      = some ({ created_at := 0, description := "d", status := "s",
                submitted := true }, []) :=
  ⟨(c3_created_at_fallback (fun _ => some { tag := "date", value := "v" })
      exParse "t").2.1 { tag := "date", value := "v" } rfl (by decide),
   (c3_created_at_fallback exPw exParse "t").2.2.2.2 exEntry exContainer
      "d" "s" [] [] rfl rfl (by decide) rfl rfl rfl rfl⟩

/-! ## C10 -/

/-- C10: `get_sim_sync_time` returns absence for a missing row, a NULL
`_last_sync_time`, and an unparseable `_last_sync_time` text alike; an entry
whose watermark is absent in this sense is processed by the scan exactly like
a never-synced one: decoded and upserted. -/
theorem c10_corrupt_watermark (parse : String → Option Int) (db : Db)
    (cuid name : String) :
    (findRow db cuid name = none → getSimSyncTime parse db cuid name = none) ∧
    (∀ r, findRow db cuid name = some r → r.lastSyncTime = none →
      getSimSyncTime parse db cuid name = none) ∧
    (∀ r s, findRow db cuid name = some r → r.lastSyncTime = some s →
      parse s = none → getSimSyncTime parse db cuid name = none) ∧
    (∀ (fmt : Int → String) (pw : String → Option TypeWrapper) (now : Int)
       (e : Entry) mt mp,
      e.name = name → e.mtime = some mt →
      getSimSyncTime parse db cuid name = none →
      loadEntryMeta pw parse e = some mp →
      stepEntry parse fmt pw now cuid db e
        = (upsertSimulation fmt now db cuid name mp.1 mp.2).1) := by
  refine ⟨?_, ?_, ?_, ?_⟩
  · intro h; simp [getSimSyncTime, h]
  · intro r h hn; simp [getSimSyncTime, h, hn]
  · intro r s h hs hp; simp [getSimSyncTime, h, hs, hp]
  · intro fmt pw now e mt mp hn hmt hgw hload
    obtain ⟨m, ps⟩ := mp
    subst hn
    simp [stepEntry, hmt, hgw, optLt, hload]

/-- Witness for C10: a row whose stored watermark text does not parse is
re-processed: at a concrete database with watermark text "zz", the decodable
entry is upserted. -/
theorem c10_corrupt_watermark_witness :
    getSimSyncTime exParse
      { collections := [], simulations := [], nextId := 1 } "c" "e" = none ∧
    stepEntry exParse exFmt exPw 7 "c"
      { collections := [], simulations := [], nextId := 1 } exEntry
      = (upsertSimulation exFmt 7
          { collections := [], simulations := [], nextId := 1 } "c" "e"
          { created_at := 0, description := "d", status := "s",
            submitted := true } []).1 :=
  ⟨(c10_corrupt_watermark exParse
      { collections := [], simulations := [], nextId := 1 } "c" "e").1 rfl,
   (c10_corrupt_watermark exParse
      { collections := [], simulations := [], nextId := 1 } "c" "e").2.2.2
      exFmt exPw 7 exEntry 5
      ({ created_at := 0, description := "d", status := "s",
         submitted := true }, []) rfl rfl rfl (by decide)⟩

/-! ## C8 -/

theorem stepEntry_undecodable (parse : String → Option Int)
    (fmt : Int → String) (pw : String → Option TypeWrapper) (now : Int)
    (cuid : String) (db : Db) (e : Entry)
    (h : loadEntryMeta pw parse e = none) :
    stepEntry parse fmt pw now cuid db e = db := by
  unfold stepEntry
  cases e.mtime with
  | none => rfl
  | some mt =>
      by_cases hskip :
          optLt (some mt) (getSimSyncTime parse db cuid e.name) = true
      · simp [hskip]
      · simp only [Bool.not_eq_true] at hskip
        simp [hskip, h]

theorem stepEntry_no_mtime (parse : String → Option Int)
    (fmt : Int → String) (pw : String → Option TypeWrapper) (now : Int)
    (cuid : String) (db : Db) (e : Entry) (h : e.mtime = none) :
    stepEntry parse fmt pw now cuid db e = db := by
  unfold stepEntry
  rw [h]

theorem foldl_stepEntry_filter (parse : String → Option Int)
    (fmt : Int → String) (pw : String → Option TypeWrapper) (now : Int)
    (cuid : String) (es : List Entry) (db : Db) :
    es.foldl (stepEntry parse fmt pw now cuid) db
      = (es.filter (fun e => (loadEntryMeta pw parse e).isSome)).foldl
          (stepEntry parse fmt pw now cuid) db := by
  induction es generalizing db with
  | nil => rfl
  | cons e rest ih =>
      by_cases h : (loadEntryMeta pw parse e).isSome
      · simp only [List.foldl_cons, List.filter_cons, h, if_true]
        exact ih _
      · have hnone : loadEntryMeta pw parse e = none :=
          Option.not_isSome_iff_eq_none.1 (by simpa using h)
        simp only [List.foldl_cons, List.filter_cons, h, if_false,
          stepEntry_undecodable parse fmt pw now cuid db e hnone]
        exact ih db

/-- C8: an entry whose container cannot be opened or decoded (missing file,
unreadable attribute, missing required attribute — all the `None` outcomes of
`load_entry_meta`), or whose mtime is unavailable, leaves the database
untouched, and removing all undecodable entries from the layout does not
change the result of the scan at all: the run continues across siblings and
other collections. -/
theorem c8_partial_failure (parse : String → Option Int)
    (fmt : Int → String) (pw : String → Option TypeWrapper) (now : Int)
    (cuid : String) (db : Db) (e : Entry) :
    (loadEntryMeta pw parse e = none →
      stepEntry parse fmt pw now cuid db e = db) ∧
    (e.mtime = none → stepEntry parse fmt pw now cuid db e = db) ∧
    (∀ fs, scan parse fmt pw now fs db
      = scan parse fmt pw now (fs.map (dropUndecodable pw parse)) db) := by
  refine ⟨stepEntry_undecodable parse fmt pw now cuid db e,
          stepEntry_no_mtime parse fmt pw now cuid db e, ?_⟩
  intro fs
  unfold scan
  rw [List.foldl_map]
  induction fs generalizing db with
  | nil => rfl
  | cons c rest ih =>
      simp only [List.foldl_cons]
      rw [← ih]
      congr 1
      unfold stepCollection dropUndecodable
      exact foldl_stepEntry_filter parse fmt pw now c.uid c.entries _

/-- Witness for C8: the concrete undecodable entry `exEntryBad` is skipped,
and scrubbing it from `exFs` leaves the scan result unchanged. -/
theorem c8_partial_failure_witness :
    stepEntry exParse exFmt exPw 7 "c" exDb exEntryBad = exDb ∧
    scan exParse exFmt exPw 7 exFs Db.init
      = scan exParse exFmt exPw 7 (exFs.map (dropUndecodable exPw exParse))
          Db.init :=
  ⟨(c8_partial_failure exParse exFmt exPw 7 "c" exDb exEntryBad).1
      (by decide),
   (c8_partial_failure exParse exFmt exPw 7 "c" exDb exEntryBad).2.2 exFs⟩

/-! ## C4 -/

theorem findRow_none_iff (db : Db) (cuid name : String) :
    findRow db cuid name = none ↔ (cuid, name) ∉ dbKeys db := by
  unfold findRow dbKeys
  rw [List.find?_eq_none]
  constructor
  · intro h hmem
    rcases List.mem_map.1 hmem with ⟨r, hr, hkey⟩
    exact h r hr (by
      rw [keyMatch_iff]
      exact ⟨congrArg Prod.fst hkey, congrArg Prod.snd hkey⟩)
  · intro h r hr hkey
    rcases (keyMatch_iff cuid name r).1 hkey with ⟨h1, h2⟩
    exact h (List.mem_map.2 ⟨r, hr, by rw [h1, h2]⟩)

theorem dbKeys_upsert (fmt : Int → String) (now : Int) (db : Db)
    (cuid name : String) (m : MetaData) (ps : Parameters) :
    dbKeys (upsertSimulation fmt now db cuid name m ps).1
      = (if (findRow db cuid name).isSome then dbKeys db
         else dbKeys db ++ [(cuid, name)]) := by
  cases hf : findRow db cuid name with
  | some r =>
      simp only [upsertSimulation, hf, Option.isSome_some, if_true]
      unfold dbKeys
      exact map_key_updateFirst (keyMatch cuid name)
        (writeFields fmt now m ps) db.simulations (fun r => ⟨rfl, rfl⟩)
  | none =>
      simp only [upsertSimulation, hf, Option.isSome_none,
        Bool.false_eq_true, if_false]
      unfold dbKeys
      simp

theorem dbKeys_nodup_upsert (fmt : Int → String) (now : Int) (db : Db)
    (cuid name : String) (m : MetaData) (ps : Parameters)
    (h : (dbKeys db).Nodup) :
    (dbKeys (upsertSimulation fmt now db cuid name m ps).1).Nodup := by
  rw [dbKeys_upsert]
  cases hf : findRow db cuid name with
  | some r => simpa using h
  | none =>
      simp only [Option.isSome_none, Bool.false_eq_true, if_false]
      rw [List.nodup_append]
      refine ⟨h, List.nodup_singleton _, ?_⟩
      intro x hx hxs
      simp only [List.mem_singleton] at hxs
      subst hxs
      exact (findRow_none_iff db cuid name).1 hf hx

/-- C4: the `(collection_uid, name)` uniqueness invariant is preserved by any
sequence of upserts; a repeated entry updates the existing row in place (no
new row, same id returned); and every upsert leaves, at its key, a row whose
mutable fields are the written ones and whose `last_sync_time` is the
wall-clock instant of this write (`now` — the file mtime is not even an input
of `upsert_simulation`), returning that row's id. -/
theorem c4_upsert_uniqueness (fmt : Int → String) :
    (∀ ops db, (dbKeys db).Nodup → (dbKeys (applyOps fmt ops db)).Nodup) ∧
    (∀ now db cuid name m ps r, findRow db cuid name = some r →
      (upsertSimulation fmt now db cuid name m ps).1.simulations.length
          = db.simulations.length ∧
      (upsertSimulation fmt now db cuid name m ps).2 = r.id) ∧
    (∀ now db cuid name m ps, ∃ r2,
      findRow (upsertSimulation fmt now db cuid name m ps).1 cuid name
          = some r2 ∧
      rowFields r2 = metaFields fmt m ps ∧
      r2.lastSyncTime = some (fmt now) ∧
      (upsertSimulation fmt now db cuid name m ps).2 = r2.id) := by
  refine ⟨?_, ?_, ?_⟩
  · intro ops
    induction ops with
    | nil => intro db h; exact h
    | cons op rest ih =>
        intro db h
        exact ih _ (dbKeys_nodup_upsert fmt op.1 db op.2.1 op.2.2.1
          op.2.2.2.1 op.2.2.2.2 h)
  · intro now db cuid name m ps r hf
    constructor
    · simp only [upsertSimulation, hf]
      exact updateFirst_length _ _ _
    · simp [upsertSimulation, hf]
  · intro now db cuid name m ps
    exact findRow_upsert_self fmt now db cuid name m ps

/-- Witness for C4: upserting the key already present in `exDb` keeps one
row, returns id 1, and refreshes the watermark to the written instant. -/
theorem c4_upsert_uniqueness_witness :
    (dbKeys (applyOps exFmt [] exDb)).Nodup ∧
    (upsertSimulation exFmt 7 exDb "c" "e"
        { created_at := 0, description := "d", status := "s",
          submitted := true } []).1.simulations.length
      = exDb.simulations.length ∧
    (upsertSimulation exFmt 7 exDb "c" "e"
        { created_at := 0, description := "d", status := "s",
          submitted := true } []).2 = exRow.id :=
  ⟨(c4_upsert_uniqueness exFmt).1 [] exDb (by decide),
   ((c4_upsert_uniqueness exFmt).2.1 7 exDb "c" "e"
      { created_at := 0, description := "d", status := "s",
        submitted := true } [] exRow (by decide)).1,
   ((c4_upsert_uniqueness exFmt).2.1 7 exDb "c" "e"
      { created_at := 0, description := "d", status := "s",
        submitted := true } [] exRow (by decide)).2⟩

/-! ## C7 -/

theorem entryKeys_cons (cuid : String) (e : Entry) (es : List Entry) :
    entryKeys cuid (e :: es) = (cuid, e.name) :: entryKeys cuid es := rfl

theorem fsKeys_cons (c : FsCollection) (rest : List FsCollection) :
    fsKeys (c :: rest) = entryKeys c.uid c.entries ++ fsKeys rest := by
  simp [fsKeys]

theorem findRow_foldl_entries_other (parse : String → Option Int)
    (fmt : Int → String) (pw : String → Option TypeWrapper) (now : Int)
    (cuid : String) (es : List Entry) (db : Db) {c' n' : String}
    (h : (c', n') ∉ entryKeys cuid es) :
    findRow (es.foldl (stepEntry parse fmt pw now cuid) db) c' n'
      = findRow db c' n' := by
  induction es generalizing db with
  | nil => rfl
  | cons e rest ih =>
      rw [entryKeys_cons] at h
      simp only [List.mem_cons, not_or] at h
      rw [List.foldl_cons, ih _ h.2,
        findRow_stepEntry_other parse fmt pw now cuid db e h.1]

theorem findRow_stepCollection_other (parse : String → Option Int)
    (fmt : Int → String) (pw : String → Option TypeWrapper) (now : Int)
    (c : FsCollection) (db : Db) {c' n' : String}
    (h : (c', n') ∉ entryKeys c.uid c.entries) :
    findRow (stepCollection parse fmt pw now db c) c' n'
      = findRow db c' n' := by
  unfold stepCollection
  rw [findRow_foldl_entries_other parse fmt pw now c.uid c.entries _ h]
  rfl

theorem findRow_scan_other (parse : String → Option Int)
    (fmt : Int → String) (pw : String → Option TypeWrapper) (now : Int)
    (fs : List FsCollection) (db : Db) {c' n' : String}
    (h : (c', n') ∉ fsKeys fs) :
    findRow (scan parse fmt pw now fs db) c' n' = findRow db c' n' := by
  induction fs generalizing db with
  | nil => rfl
  | cons c rest ih =>
      rw [fsKeys_cons] at h
      simp only [List.mem_append, not_or] at h
      show findRow
        (scan parse fmt pw now rest (stepCollection parse fmt pw now db c))
        c' n' = findRow db c' n'
      rw [ih _ h.2, findRow_stepCollection_other parse fmt pw now c db h.1]

theorem entryOk_congr (parse : String → Option Int) (fmt : Int → String)
    (pw : String → Option TypeWrapper) {db db' : Db} {cuid : String}
    {e : Entry} (h : findRow db' cuid e.name = findRow db cuid e.name)
    (hok : entryOk parse fmt pw db cuid e) :
    entryOk parse fmt pw db' cuid e := by
  unfold entryOk at hok ⊢
  intro mt hmt mp hload
  rw [getSimSyncTime_of_findRow parse h, h]
  exact hok mt hmt mp hload

/-- Running the scan body once on an entry establishes its `entryOk`
invariant. -/
theorem entryOk_stepEntry_self (parse : String → Option Int)
    (fmt : Int → String) (pw : String → Option TypeWrapper) (now : Int)
    (cuid : String) (db : Db) (e : Entry) :
    entryOk parse fmt pw (stepEntry parse fmt pw now cuid db e) cuid e := by
  unfold entryOk
  intro mt hmt mp hload
  obtain ⟨m, ps⟩ := mp
  by_cases hskip : optLt (some mt) (getSimSyncTime parse db cuid e.name) = true
  · left
    have hstep : stepEntry parse fmt pw now cuid db e = db := by
      unfold stepEntry
      rw [hmt]
      simp [hskip]
    rw [hstep]
    exact hskip
  · right
    have hstep : stepEntry parse fmt pw now cuid db e
        = (upsertSimulation fmt now db cuid e.name m ps).1 := by
      unfold stepEntry
      rw [hmt]
      simp only [Bool.not_eq_true] at hskip
      simp [hskip, hload]
    rw [hstep]
    obtain ⟨r2, hfind, hfields, -, -⟩ :=
      findRow_upsert_self fmt now db cuid e.name m ps
    exact ⟨r2, hfind, hfields⟩

theorem foldl_entryOk (parse : String → Option Int) (fmt : Int → String)
    (pw : String → Option TypeWrapper) (now : Int) (cuid : String)
    (es : List Entry) (db : Db) (hnd : (entryKeys cuid es).Nodup) :
    ∀ e ∈ es,
      entryOk parse fmt pw (es.foldl (stepEntry parse fmt pw now cuid) db)
        cuid e := by
  induction es generalizing db with
  | nil => intro e he; simp at he
  | cons e0 rest ih =>
      rw [entryKeys_cons, List.nodup_cons] at hnd
      intro e he
      rcases List.mem_cons.1 he with he0 | hrest
      · subst he0
        rw [List.foldl_cons]
        refine entryOk_congr parse fmt pw
          (findRow_foldl_entries_other parse fmt pw now cuid rest _ ?_)
          (entryOk_stepEntry_self parse fmt pw now cuid db e)
        exact hnd.1
      · rw [List.foldl_cons]
        exact ih _ hnd.2 e hrest

theorem stepCollection_entryOk (parse : String → Option Int)
    (fmt : Int → String) (pw : String → Option TypeWrapper) (now : Int)
    (c : FsCollection) (db : Db)
    (hnd : (entryKeys c.uid c.entries).Nodup) :
    ∀ e ∈ c.entries,
      entryOk parse fmt pw (stepCollection parse fmt pw now db c) c.uid e :=
  foldl_entryOk parse fmt pw now c.uid c.entries
    (upsertCollection db c.uid c.path) hnd

/-- A completed scan leaves every discovered decodable entry `entryOk`. -/
theorem scan_entryOk (parse : String → Option Int) (fmt : Int → String)
    (pw : String → Option TypeWrapper) (now : Int) (fs : List FsCollection)
    (db : Db) (hnd : (fsKeys fs).Nodup) :
    ∀ c ∈ fs, ∀ e ∈ c.entries,
      entryOk parse fmt pw (scan parse fmt pw now fs db) c.uid e := by
  induction fs generalizing db with
  | nil => intro c hc; simp at hc
  | cons c0 rest ih =>
      rw [fsKeys_cons, List.nodup_append] at hnd
      obtain ⟨hnd0, hndr, hdisj⟩ := hnd
      intro c hc e he
      rcases List.mem_cons.1 hc with hc0 | hcr
      · subst hc0
        show entryOk parse fmt pw
          (scan parse fmt pw now rest (stepCollection parse fmt pw now db c))
          c.uid e
        refine entryOk_congr parse fmt pw
          (findRow_scan_other parse fmt pw now rest _ ?_)
          (stepCollection_entryOk parse fmt pw now c db hnd0 e he)
        intro hmem
        exact hdisj (List.mem_map.2 ⟨e, he, rfl⟩) hmem
      · exact ih _ hndr c hcr e he

theorem rowContent_writeFields (fmt : Int → String) (now : Int)
    (m : MetaData) (ps : Parameters) (r : SimRow)
    (h : rowFields r = metaFields fmt m ps) :
    rowContent (writeFields fmt now m ps r) = rowContent r := by
  unfold rowFields metaFields at h
  simp only [Prod.mk.injEq] at h
  obtain ⟨h1, h2, h3, h4, h5⟩ := h
  unfold rowContent writeFields
  simp [h1, h2, h3, h4, h5]

theorem contentMap_upsert_noop (fmt : Int → String) (now : Int) (db : Db)
    (cuid name : String) (m : MetaData) (ps : Parameters) (r : SimRow)
    (hfind : findRow db cuid name = some r)
    (hfields : rowFields r = metaFields fmt m ps) :
    contentMap (upsertSimulation fmt now db cuid name m ps).1
      = contentMap db := by
  simp only [upsertSimulation, hfind]
  unfold contentMap
  exact map_rowContent_updateFirst (keyMatch cuid name)
    (writeFields fmt now m ps) db.simulations r hfind
    (rowContent_writeFields fmt now m ps r hfields)

/-- On an `entryOk` database, one scan step over the entry does not change
any row content. -/
theorem stepEntry_content (parse : String → Option Int)
    (fmt : Int → String) (pw : String → Option TypeWrapper) (now : Int)
    (cuid : String) (db : Db) (e : Entry)
    (hok : entryOk parse fmt pw db cuid e) :
    contentMap (stepEntry parse fmt pw now cuid db e) = contentMap db := by
  unfold stepEntry
  cases hmt : e.mtime with
  | none => rfl
  | some mt =>
      by_cases hskip :
          optLt (some mt) (getSimSyncTime parse db cuid e.name) = true
      · simp [hskip]
      · simp only [Bool.not_eq_true] at hskip
        simp only [hskip, Bool.false_eq_true, if_false]
        cases hload : loadEntryMeta pw parse e with
        | none => rfl
        | some mp =>
            obtain ⟨m, ps⟩ := mp
            rcases hok mt hmt (m, ps) hload with hsk | ⟨r, hfind, hfields⟩
            · rw [hsk] at hskip; cases hskip
            · exact contentMap_upsert_noop fmt now db cuid e.name m ps r
                hfind hfields

theorem foldl_content (parse : String → Option Int) (fmt : Int → String)
    (pw : String → Option TypeWrapper) (now : Int) (cuid : String)
    (es : List Entry) (db : Db)
    (hok : ∀ e ∈ es, entryOk parse fmt pw db cuid e)
    (hnd : (entryKeys cuid es).Nodup) :
    contentMap (es.foldl (stepEntry parse fmt pw now cuid) db)
      = contentMap db := by
  induction es generalizing db with
  | nil => rfl
  | cons e0 rest ih =>
      rw [entryKeys_cons, List.nodup_cons] at hnd
      rw [List.foldl_cons]
      have hok0 := hok e0 (List.mem_cons_self e0 rest)
      rw [ih _ ?_ hnd.2]
      · exact stepEntry_content parse fmt pw now cuid db e0 hok0
      · intro e he
        refine entryOk_congr parse fmt pw
          (findRow_stepEntry_other parse fmt pw now cuid db e0 ?_)
          (hok e (List.mem_cons_of_mem e0 he))
        intro hkey
        refine hnd.1 ?_
        rw [← hkey]
        exact List.mem_map.2 ⟨e, he, rfl⟩

theorem stepCollection_content (parse : String → Option Int)
    (fmt : Int → String) (pw : String → Option TypeWrapper) (now : Int)
    (c : FsCollection) (db : Db)
    (hok : ∀ e ∈ c.entries, entryOk parse fmt pw db c.uid e)
    (hnd : (entryKeys c.uid c.entries).Nodup) :
    contentMap (stepCollection parse fmt pw now db c) = contentMap db := by
  unfold stepCollection
  refine foldl_content parse fmt pw now c.uid c.entries _ ?_ hnd
  intro e he
  exact entryOk_congr parse fmt pw
    (findRow_upsertCollection db c.uid c.path c.uid e.name) (hok e he)

/-- Scanning a database on which every discovered entry is `entryOk` does
not change any row content. -/
theorem scan_content (parse : String → Option Int) (fmt : Int → String)
    (pw : String → Option TypeWrapper) (now : Int) (fs : List FsCollection)
    (db : Db)
    (hok : ∀ c ∈ fs, ∀ e ∈ c.entries, entryOk parse fmt pw db c.uid e)
    (hnd : (fsKeys fs).Nodup) :
    contentMap (scan parse fmt pw now fs db) = contentMap db := by
  induction fs generalizing db with
  | nil => rfl
  | cons c0 rest ih =>
      rw [fsKeys_cons, List.nodup_append] at hnd
      obtain ⟨hnd0, hndr, hdisj⟩ := hnd
      show contentMap
        (scan parse fmt pw now rest (stepCollection parse fmt pw now db c0))
        = contentMap db
      rw [ih _ ?_ hndr]
      · exact stepCollection_content parse fmt pw now c0 db
          (fun e he => hok c0 (List.mem_cons_self c0 rest) e he) hnd0
      · intro c hc e he
        refine entryOk_congr parse fmt pw
          (findRow_stepCollection_other parse fmt pw now c0 db ?_)
          (hok c (List.mem_cons_of_mem c0 hc) e he)
        intro hmem
        refine hdisj hmem ?_
        unfold fsKeys
        refine List.mem_flatten.2 ⟨entryKeys c.uid c.entries, ?_, ?_⟩
        · exact List.mem_map.2 ⟨c, hc, rfl⟩
        · exact List.mem_map.2 ⟨e, he, rfl⟩

/-- C7: scanning twice with no filesystem change between the runs (so with
the same discovered layout, whose keys are distinct) adds no row and leaves
every row's content — all fields except possibly `_last_sync_time` —
unchanged. -/
theorem c7_scan_idempotent (parse : String → Option Int)
    (fmt : Int → String) (pw : String → Option TypeWrapper)
    (now1 now2 : Int) (fs : List FsCollection) (db0 : Db)
    (hnd : (fsKeys fs).Nodup) :
    (scan parse fmt pw now2 fs
        (scan parse fmt pw now1 fs db0)).simulations.length
      = (scan parse fmt pw now1 fs db0).simulations.length ∧
    contentMap (scan parse fmt pw now2 fs (scan parse fmt pw now1 fs db0))
      = contentMap (scan parse fmt pw now1 fs db0) := by
  have hcontent :=
    scan_content parse fmt pw now2 fs (scan parse fmt pw now1 fs db0)
      (scan_entryOk parse fmt pw now1 fs db0 hnd) hnd
  refine ⟨?_, hcontent⟩
  have := congrArg List.length hcontent
  simpa [contentMap] using this

/-- Witness for C7: on the concrete layout `exFs` (distinct keys), the second
scan changes neither the row count nor any row content. -/
theorem c7_scan_idempotent_witness :
    (scan exParse exFmt exPw 9 exFs
        (scan exParse exFmt exPw 7 exFs Db.init)).simulations.length
      = (scan exParse exFmt exPw 7 exFs Db.init).simulations.length ∧
    contentMap
        (scan exParse exFmt exPw 9 exFs (scan exParse exFmt exPw 7 exFs Db.init))
      = contentMap (scan exParse exFmt exPw 7 exFs Db.init) :=
  c7_scan_idempotent exParse exFmt exPw 7 9 exFs Db.init (by decide)

/-! ## C6 -/

theorem hasFile_nil (suffix : List String) (name : String) :
    ¬ hasFile (FsNode.dir []) suffix name := by
  cases suffix with
  | nil => rintro ⟨s, hs⟩; simp at hs
  | cons k rest => rintro ⟨sub, hsub, -⟩; simp at hsub

theorem hasFile_cons_file (n s : String)
    (rest : List (String × FsNode)) (suffix : List String) (name : String) :
    hasFile (FsNode.dir ((n, FsNode.file s) :: rest)) suffix name ↔
      (suffix = [] ∧ name = n) ∨ hasFile (FsNode.dir rest) suffix name := by
  cases suffix with
  | nil =>
      constructor
      · rintro ⟨s', hs'⟩
        rcases List.mem_cons.1 hs' with h | h
        · simp only [Prod.mk.injEq, FsNode.file.injEq] at h
          exact Or.inl ⟨rfl, h.1⟩
        · exact Or.inr ⟨s', h⟩
      · rintro (⟨-, hname⟩ | ⟨s', hs'⟩)
        · exact ⟨s, by simp [hname]⟩
        · exact ⟨s', List.mem_cons_of_mem _ hs'⟩
  | cons k tail =>
      constructor
      · rintro ⟨sub, hsub, hhf⟩
        rcases List.mem_cons.1 hsub with h | h
        · simp only [Prod.mk.injEq] at h
          rw [h.2] at hhf
          exact absurd hhf (by simp [hasFile])
        · exact Or.inr ⟨sub, h, hhf⟩
      · rintro (⟨hsuf, -⟩ | ⟨sub, hsub, hhf⟩)
        · cases hsuf
        · exact ⟨sub, List.mem_cons_of_mem _ hsub, hhf⟩

theorem hasFile_cons_dir (n : String) (ch2 rest : List (String × FsNode))
    (suffix : List String) (name : String) :
    hasFile (FsNode.dir ((n, FsNode.dir ch2) :: rest)) suffix name ↔
      (∃ suffix2, suffix = n :: suffix2 ∧
        hasFile (FsNode.dir ch2) suffix2 name) ∨
      hasFile (FsNode.dir rest) suffix name := by
  cases suffix with
  | nil =>
      constructor
      · rintro ⟨s', hs'⟩
        rcases List.mem_cons.1 hs' with h | h
        · simp at h
        · exact Or.inr ⟨s', h⟩
      · rintro (⟨s2, hs2, -⟩ | ⟨s', hs'⟩)
        · cases hs2
        · exact ⟨s', List.mem_cons_of_mem _ hs'⟩
  | cons k tail =>
      constructor
      · rintro ⟨sub, hsub, hhf⟩
        rcases List.mem_cons.1 hsub with h | h
        · simp only [Prod.mk.injEq] at h
          refine Or.inl ⟨tail, by rw [h.1], ?_⟩
          rw [h.2] at hhf
          exact hhf
        · exact Or.inr ⟨sub, h, hhf⟩
      · rintro (⟨s2, hs2, hhf⟩ | ⟨sub, hsub, hhf⟩)
        · obtain ⟨h1, h2⟩ := List.cons.injEq .. ▸ hs2
          exact ⟨FsNode.dir ch2, by simp [h1], h2 ▸ hhf⟩
        · exact ⟨sub, List.mem_cons_of_mem _ hsub, hhf⟩

/-- What the bounded walk emits: exactly the marker-shaped filenames whose
depth fits in the remaining budget. -/
theorem walkChildren_mem (fuel : Nat) (base : List String)
    (ch : List (String × FsNode)) (p : List String) (u : String) :
    (p, u) ∈ walkChildren fuel base ch ↔
      ∃ suffix name, p = base ++ suffix ∧ suffix.length < fuel ∧
        hasFile (FsNode.dir ch) suffix name ∧ markerOf name = some u := by
  induction fuel, base, ch using walkChildren.induct generalizing p u with
  | case1 fuel base =>
      simp only [walkChildren, List.not_mem_nil, false_iff]
      rintro ⟨suffix, name, -, -, hhf, -⟩
      exact hasFile_nil suffix name hhf
  | case2 base head tail =>
      simp only [walkChildren, List.not_mem_nil, false_iff]
      rintro ⟨suffix, name, -, hlen, -, -⟩
      omega
  | case3 fuel base n a rest ih =>
      simp only [walkChildren, List.mem_append, ih]
      constructor
      · rintro (hemit | ⟨suffix, name, hp, hlen, hhf, hm⟩)
        · cases hm : markerOf n with
          | none => rw [hm] at hemit; simp at hemit
          | some uid =>
              rw [hm] at hemit
              simp only [List.mem_singleton, Prod.mk.injEq] at hemit
              refine ⟨[], n, by simp [hemit.1], by simp, ?_, ?_⟩
              · rw [hasFile_cons_file]; exact Or.inl ⟨rfl, rfl⟩
              · rw [hm, hemit.2]
        · exact ⟨suffix, name, hp, by omega,
            (hasFile_cons_file n a rest suffix name).2 (Or.inr hhf), hm⟩
      · rintro ⟨suffix, name, hp, hlen, hhf, hm⟩
        rcases (hasFile_cons_file n a rest suffix name).1 hhf with
          ⟨hsuf, hname⟩ | hhf'
        · subst hsuf; subst hname
          left
          rw [hm]
          simp [hp]
        · exact Or.inr ⟨suffix, name, hp, hlen, hhf', hm⟩
  | case4 fuel base n ch2 rest ih1 ih2 =>
      simp only [walkChildren, List.mem_append, ih1, ih2]
      constructor
      · rintro (⟨suffix2, name, hp, hlen, hhf, hm⟩ |
                ⟨suffix, name, hp, hlen, hhf, hm⟩)
        · refine ⟨n :: suffix2, name, by simp [hp], by simp; omega, ?_, hm⟩
          rw [hasFile_cons_dir]
          exact Or.inl ⟨suffix2, rfl, hhf⟩
        · exact ⟨suffix, name, hp, by omega,
            (hasFile_cons_dir n ch2 rest suffix name).2 (Or.inr hhf), hm⟩
      · rintro ⟨suffix, name, hp, hlen, hhf, hm⟩
        rcases (hasFile_cons_dir n ch2 rest suffix name).1 hhf with
          ⟨suffix2, hsuf, hhf'⟩ | hhf'
        · subst hsuf
          refine Or.inl ⟨suffix2, name, by simp [hp], by simp at hlen; omega,
            hhf', hm⟩
        · exact Or.inr ⟨suffix, name, hp, hlen, hhf', hm⟩

/-- Membership in `find_all`: exactly the parent/uid pairs of marker files at
most 5 levels below the root. -/
theorem findAll_mem (root : FsNode) (p : List String) (u : String) :
    (p, u) ∈ findAll root ↔
      ∃ name, hasFile root p name ∧ p.length + 1 ≤ 5 ∧
        markerOf name = some u := by
  cases root with
  | file s =>
      simp only [findAll, List.not_mem_nil, false_iff]
      rintro ⟨name, hhf, -, -⟩
      simp [hasFile] at hhf
  | dir ch =>
      rw [show findAll (FsNode.dir ch) = walkChildren 5 [] ch from rfl,
        walkChildren_mem]
      constructor
      · rintro ⟨suffix, name, hp, hlen, hhf, hm⟩
        simp only [List.nil_append] at hp
        subst hp
        exact ⟨name, hhf, by omega, hm⟩
      · rintro ⟨name, hhf, hlen, hm⟩
        exact ⟨p, name, by simp, by omega, hhf, hm⟩

/-- C6: the marker scanner yields exactly the (parent directory, uid) pairs
of the files at most 5 levels below the root whose filename starts with the
fixed prefix, the uid being the remainder after the prefix with an optional
`.yml` extension removed; nothing else is reported. -/
theorem c6_marker_scanner (root : FsNode) (p : List String) (u : String) :
    (p, u) ∈ findAll root ↔
      ∃ name, hasFile root p name ∧ p.length + 1 ≤ 5 ∧
        ∃ rest, strDropPre metaPre name = some rest ∧ u = dropYml rest := by
  rw [findAll_mem]
  constructor
  · rintro ⟨name, hhf, hlen, hm⟩
    rcases Option.map_eq_some'.1 hm with ⟨rest, hrest, hdrop⟩
    exact ⟨name, hhf, hlen, rest, hrest, hdrop.symm⟩
  · rintro ⟨name, hhf, hlen, rest, hrest, hdrop⟩
    exact ⟨name, hhf, hlen, Option.map_eq_some'.2 ⟨rest, hrest, hdrop.symm⟩⟩

/-! ## C9 -/

theorem lastIdxOf_eq_none (c : Char) (l : List Char) (h : c ∉ l) :
    lastIdxOf c l = none := by
  induction l with
  | nil => rfl
  | cons x xs ih =>
      simp only [List.mem_cons, not_or] at h
      unfold lastIdxOf
      rw [ih h.2]
      exact if_neg (fun hh => h.1 hh.symm)

theorem stemOf_no_dot (h : Char) (t : List Char)
    (hnd : lastIdxOf '.' t = none) : stemOf (h :: t) = h :: t := by
  simp [stemOf, hnd]

theorem markerFileName_nodot (uid : String)
    (hdot : ('.' : Char) ∉ uid.data) :
    markerFileName uid = metaPre ++ uid ++ ".yml" := by
  unfold markerFileName
  have h1 : (metaPre ++ uid).data
      = '.' :: ("bamboost-collection-".data ++ uid.data) := by
    rw [String.data_append]
    rfl
  have h2 : lastIdxOf '.' ("bamboost-collection-".data ++ uid.data)
      = none := by
    apply lastIdxOf_eq_none
    simp only [List.mem_append, not_or]
    exact ⟨by decide, hdot⟩
  rw [h1, stemOf_no_dot _ _ h2]
  have h3 : ('.' :: ("bamboost-collection-".data ++ uid.data)) ++ ".yml".data
      = (metaPre ++ uid ++ ".yml").data := by
    rw [String.data_append, String.data_append]
    rfl
  rw [h3]

theorem markerOf_marker (uid : String) (hdot : ('.' : Char) ∉ uid.data) :
    markerOf (markerFileName uid) = some uid := by
  rw [markerFileName_nodot uid hdot]
  have hdata : (metaPre ++ uid ++ ".yml").data
      = metaPre.data ++ (uid.data ++ ".yml".data) := by
    rw [String.data_append, String.data_append, List.append_assoc]
  have hpre : List.isPrefixOf metaPre.data (metaPre ++ uid ++ ".yml").data
      = true := by
    rw [hdata]
    simp
  unfold markerOf strDropPre
  rw [hpre]
  simp only [if_true, Option.map_some']
  have hdrop : (metaPre ++ uid ++ ".yml").data.drop metaPre.data.length
      = uid.data ++ ".yml".data := by
    rw [hdata]
    exact List.drop_left metaPre.data (uid.data ++ ".yml".data)
  rw [hdrop]
  have hsuf : List.isSuffixOf ".yml".data (uid.data ++ ".yml".data)
      = true := by simp
  unfold dropYml
  have hmk : (String.mk (uid.data ++ ".yml".data)).data
      = uid.data ++ ".yml".data := rfl
  rw [hmk, hsuf]
  simp only [if_true]
  have hlen : (uid.data ++ ".yml".data).length - 4 = uid.data.length := by
    simp [List.length_append]
  rw [hlen]
  rw [List.take_left uid.data ".yml".data]

theorem findChild_cons (c : String × FsNode) (cs : List (String × FsNode))
    (k : String) :
    findChild (c :: cs) k
      = if c.1 == k then some c.2 else findChild cs k := by
  unfold findChild
  rw [List.find?_cons]
  by_cases hk : (c.1 == k) = true <;> simp [hk]

theorem replaceChild_cons (c : String × FsNode)
    (cs : List (String × FsNode)) (k : String) (sub2 : FsNode) :
    replaceChild (c :: cs) k sub2
      = if c.1 == k then (k, sub2) :: cs else c :: replaceChild cs k sub2 :=
  rfl

theorem mem_replaceChild (ch : List (String × FsNode)) (k : String)
    (sub sub2 : FsNode) (h : findChild ch k = some sub) :
    (k, sub2) ∈ replaceChild ch k sub2 := by
  induction ch with
  | nil => simp [findChild] at h
  | cons c cs ih =>
      rw [findChild_cons] at h
      rw [replaceChild_cons]
      by_cases hk : (c.1 == k) = true
      · rw [if_pos hk]
        exact List.mem_cons_self _ _
      · rw [if_neg hk] at h
        rw [if_neg hk]
        exact List.mem_cons_of_mem _ (ih h)

theorem insertFileAt_hasFile (p : List String) :
    ∀ (root : FsNode) (name content : String) (r' : FsNode),
      insertFileAt root p name content = some r' → hasFile r' p name := by
  induction p with
  | nil =>
      intro root name content r' h
      cases root with
      | file s => simp [insertFileAt] at h
      | dir ch =>
          simp only [insertFileAt, Option.some.injEq] at h
          subst h
          exact ⟨content, by simp⟩
  | cons k rest ih =>
      intro root name content r' h
      cases root with
      | file s => simp [insertFileAt] at h
      | dir ch =>
          cases hfc : findChild ch k with
          | none => simp [insertFileAt, hfc] at h
          | some sub =>
              cases hins : insertFileAt sub rest name content with
              | none => simp [insertFileAt, hfc, hins] at h
              | some sub2 =>
                  simp only [insertFileAt, hfc, hins, Option.map_some',
                    Option.some.injEq] at h
                  subst h
                  exact ⟨sub2, mem_replaceChild ch k sub sub2 hfc,
                    ih sub name content sub2 hins⟩

theorem newCollection_hasFile (root : FsNode) (path : List String)
    (uid : String) (r' : FsNode)
    (h : newCollection root path uid = Except.ok r') :
    hasFile r' path (markerFileName uid) := by
  cases hl : lookupNode root path with
  | some node =>
      cases node with
      | file s => simp [newCollection, hl] at h
      | dir ch =>
          by_cases hche : ch.isEmpty = true
          · cases hins : insertFileAt root path (markerFileName uid)
                markerContent with
            | none => simp [newCollection, hl, hche, hins] at h
            | some r =>
                simp only [newCollection, hl, hche, if_true, hins,
                  Except.ok.injEq] at h
                subst h
                exact insertFileAt_hasFile path root (markerFileName uid)
                  markerContent _ hins
          · simp [newCollection, hl, hche] at h
  | none =>
      cases hcd : createDirAll root path with
      | none => simp [newCollection, hl, hcd] at h
      | some root1 =>
          cases hins : insertFileAt root1 path (markerFileName uid)
              markerContent with
          | none => simp [newCollection, hl, hcd, hins] at h
          | some r =>
              simp only [newCollection, hl, hcd, hins,
                Except.ok.injEq] at h
              subst h
              exact insertFileAt_hasFile path root1 (markerFileName uid)
                markerContent _ hins

/-- C9 (amended): for a dot-free uid, a successful `new_collection` writes
the marker named exactly prefix ++ uid ++ ".yml", and a scan from an
ancestor at most 4 levels above the collection directory (so that the marker
file lies within the scanner's 5-level bound) reports exactly that
directory/uid pair. -/
theorem c9_create_scan_roundtrip (uid : String) (root r' : FsNode)
    (path : List String) (hdot : ('.' : Char) ∉ uid.data)
    (hok : newCollection root path uid = Except.ok r')
    (hdepth : path.length ≤ 4) :
    markerFileName uid = metaPre ++ uid ++ ".yml" ∧
    (path, uid) ∈ findAll r' := by
  refine ⟨markerFileName_nodot uid hdot, ?_⟩
  exact (findAll_mem r' path uid).2
    ⟨markerFileName uid, newCollection_hasFile root path uid r' hok,
     by omega, markerOf_marker uid hdot⟩

/-- Witness for C9: creating collection "U" one level below an empty root
and scanning from the root recovers it. -/
theorem c9_create_scan_roundtrip_witness :
    markerFileName "U" = metaPre ++ "U" ++ ".yml" ∧
    (["d"], "U") ∈ findAll
      (FsNode.dir [("d", FsNode.dir
        [(".bamboost-collection-U.yml", FsNode.file "yaml")])]) :=
  c9_create_scan_roundtrip "U" (FsNode.dir [])
    (FsNode.dir [("d", FsNode.dir
      [(".bamboost-collection-U.yml", FsNode.file "yaml")])])
    ["d"] (by decide) rfl (by decide)

/-- Counterexample to C9 as stated: the create-then-scan round trip fails
from an ancestor more than 4 levels above the new collection. Creating
collection "U" in the empty directory at depth 5 succeeds, but a scan from
the root does not report it: its marker file sits at depth 6, beyond the
scanner's 5-level bound. -/
theorem c9_counterexample :
    newCollection
      (FsNode.dir [("a", FsNode.dir [("b", FsNode.dir [("c", FsNode.dir
        [("d", FsNode.dir [("e", FsNode.dir [])])])])])])
      ["a", "b", "c", "d", "e"] "U"
      = Except.ok
        (FsNode.dir [("a", FsNode.dir [("b", FsNode.dir [("c", FsNode.dir
          [("d", FsNode.dir [("e", FsNode.dir
            [(".bamboost-collection-U.yml", FsNode.file "yaml")])])])])])]) ∧
    (["a", "b", "c", "d", "e"], "U") ∉ findAll
      (FsNode.dir [("a", FsNode.dir [("b", FsNode.dir [("c", FsNode.dir
        [("d", FsNode.dir [("e", FsNode.dir
          [(".bamboost-collection-U.yml", FsNode.file "yaml")])])])])])]) := by
  constructor
  · rfl
  · intro hmem
    rcases (findAll_mem _ _ _).1 hmem with ⟨name, -, hlen, -⟩
    simp at hlen

/-! ## C5 -/

theorem lookupNode_cons (ch : List (String × FsNode)) (k : String)
    (p : List String) (sub : FsNode) (h : findChild ch k = some sub) :
    lookupNode (FsNode.dir ch) (k :: p) = lookupNode sub p := by
  simp [lookupNode, h]

theorem findChild_replaceChild (ch : List (String × FsNode)) (k : String)
    (sub sub2 : FsNode) (h : findChild ch k = some sub) :
    findChild (replaceChild ch k sub2) k = some sub2 := by
  induction ch with
  | nil => simp [findChild] at h
  | cons c cs ih =>
      rw [findChild_cons] at h
      rw [replaceChild_cons]
      by_cases hk : (c.1 == k) = true
      · rw [if_pos hk, findChild_cons]
        simp
      · rw [if_neg hk] at h
        rw [if_neg hk, findChild_cons]
        simp only [hk, if_false, Bool.false_eq_true]
        exact ih h

theorem findChild_append_self (ch : List (String × FsNode)) (k : String)
    (t : FsNode) (h : findChild ch k = none) :
    findChild (ch ++ [(k, t)]) k = some t := by
  unfold findChild at h ⊢
  rw [List.find?_append]
  simp only [Option.map_eq_none'] at h
  rw [h]
  simp [List.find?_cons]

theorem createDirAll_fresh (rest : List String) :
    ∃ t, createDirAll (FsNode.dir []) rest = some t ∧
      ∃ ch, lookupNode t rest = some (FsNode.dir ch) := by
  induction rest with
  | nil => exact ⟨FsNode.dir [], rfl, [], rfl⟩
  | cons k r ih =>
      obtain ⟨t, ht, ch, hl⟩ := ih
      refine ⟨FsNode.dir [(k, t)], ?_, ch, ?_⟩
      · simp only [createDirAll, findChild, List.find?_nil, Option.map_none',
          ht, Option.map_some']
        rfl
      · rw [lookupNode_cons [(k, t)] k r t (by simp [findChild, List.find?_cons])]
        exact hl

theorem createDirAll_ok (path : List String) :
    ∀ root : FsNode,
      (∀ p q, p ++ q = path → ∀ s, lookupNode root p ≠ some (FsNode.file s)) →
      ∃ root1, createDirAll root path = some root1 ∧
        ∃ ch, lookupNode root1 path = some (FsNode.dir ch) := by
  induction path with
  | nil =>
      intro root hnf
      cases root with
      | file s => exact absurd rfl (hnf [] [] rfl s)
      | dir ch => exact ⟨FsNode.dir ch, rfl, ch, rfl⟩
  | cons k rest ih =>
      intro root hnf
      cases root with
      | file s => exact absurd rfl (hnf [] (k :: rest) rfl s)
      | dir ch0 =>
          cases hfc : findChild ch0 k with
          | some sub =>
              have hsub : ∀ p q, p ++ q = rest →
                  ∀ s, lookupNode sub p ≠ some (FsNode.file s) := by
                intro p q hpq s hlook
                refine hnf (k :: p) q (by rw [← hpq]; rfl) s ?_
                rw [lookupNode_cons ch0 k p sub hfc]
                exact hlook
              obtain ⟨sub1, hcd, ch1, hl1⟩ := ih sub hsub
              refine ⟨FsNode.dir (replaceChild ch0 k sub1), ?_, ch1, ?_⟩
              · simp only [createDirAll, hfc, hcd, Option.map_some']
              · rw [lookupNode_cons (replaceChild ch0 k sub1) k rest sub1
                  (findChild_replaceChild ch0 k sub sub1 hfc)]
                exact hl1
          | none =>
              obtain ⟨t, ht, ch1, hl1⟩ := createDirAll_fresh rest
              refine ⟨FsNode.dir (ch0 ++ [(k, t)]), ?_, ch1, ?_⟩
              · simp only [createDirAll, hfc, ht, Option.map_some']
              · rw [lookupNode_cons (ch0 ++ [(k, t)]) k rest t
                  (findChild_append_self ch0 k t hfc)]
                exact hl1

theorem insertFileAt_of_lookup_dir (path : List String) :
    ∀ (root : FsNode) (ch : List (String × FsNode)),
      lookupNode root path = some (FsNode.dir ch) →
      ∀ name content, ∃ r', insertFileAt root path name content = some r' := by
  induction path with
  | nil =>
      intro root ch hl name content
      cases root with
      | file s => cases hl
      | dir ch0 => exact ⟨_, rfl⟩
  | cons k rest ih =>
      intro root ch hl name content
      cases root with
      | file s => cases hl
      | dir ch0 =>
          cases hfc : findChild ch0 k with
          | none => rw [lookupNode, hfc] at hl; cases hl
          | some sub =>
              rw [lookupNode_cons ch0 k rest sub hfc] at hl
              obtain ⟨sub2, hins⟩ := ih sub ch hl name content
              exact ⟨FsNode.dir (replaceChild ch0 k sub2),
                by simp only [insertFileAt, hfc, hins, Option.map_some']⟩

/-- C5 (amended): `new_collection` fails with the distinguishable conflict
kinds on an existing non-directory (`AlreadyExists`) and on an existing
non-empty directory (`DirectoryNotEmpty`) — both checks run before any write,
so an error leaves the filesystem unchanged and writes no marker (in this
model an error carries no new tree at all) — and succeeds, writing the
marker file, on an existing empty directory or on an absent path none of
whose existing ancestors is a file. -/
theorem c5_create_collection (root : FsNode) (path : List String)
    (uid : String) :
    (NcErr.alreadyExists ≠ NcErr.ioErr ∧ NcErr.dirNotEmpty ≠ NcErr.ioErr ∧
     NcErr.alreadyExists ≠ NcErr.dirNotEmpty) ∧
    (∀ s, lookupNode root path = some (FsNode.file s) →
      newCollection root path uid = Except.error NcErr.alreadyExists) ∧
    (∀ ch, lookupNode root path = some (FsNode.dir ch) → ch ≠ [] →
      newCollection root path uid = Except.error NcErr.dirNotEmpty) ∧
    (lookupNode root path = some (FsNode.dir []) →
      ∃ r', newCollection root path uid = Except.ok r' ∧
        hasFile r' path (markerFileName uid)) ∧
    (lookupNode root path = none →
      (∀ p q, p ++ q = path → ∀ s, lookupNode root p ≠ some (FsNode.file s)) →
      ∃ r', newCollection root path uid = Except.ok r' ∧
        hasFile r' path (markerFileName uid)) := by
  refine ⟨⟨by decide, by decide, by decide⟩, ?_, ?_, ?_, ?_⟩
  · intro s hl
    simp [newCollection, hl]
  · intro ch hl hne
    have hche : ch.isEmpty = false := by
      simpa [List.isEmpty_iff] using hne
    simp [newCollection, hl, hche]
  · intro hl
    obtain ⟨r', hins⟩ :=
      insertFileAt_of_lookup_dir path root [] hl (markerFileName uid)
        markerContent
    refine ⟨r', ?_, insertFileAt_hasFile path root _ _ r' hins⟩
    simp [newCollection, hl, hins]
  · intro hl hnf
    obtain ⟨root1, hcd, ch1, hl1⟩ := createDirAll_ok path root hnf
    obtain ⟨r', hins⟩ :=
      insertFileAt_of_lookup_dir path root1 ch1 hl1 (markerFileName uid)
        markerContent
    refine ⟨r', ?_, insertFileAt_hasFile path root1 _ _ r' hins⟩
    simp [newCollection, hl, hcd, hins]

/-- Witness for C5: conflict on a concrete non-empty directory, and success
with a written marker on a concrete empty directory. -/
theorem c5_create_collection_witness :
    newCollection (FsNode.dir [("a", FsNode.dir [("z", FsNode.file "x")])])
        ["a"] "U" = Except.error NcErr.dirNotEmpty ∧
    newCollection (FsNode.dir [("a", FsNode.file "x")]) ["a"] "U"
      = Except.error NcErr.alreadyExists ∧
    ∃ r', newCollection (FsNode.dir [("d", FsNode.dir [])]) ["d"] "U"
        = Except.ok r' ∧ hasFile r' ["d"] (markerFileName "U") :=
  ⟨(c5_create_collection
      (FsNode.dir [("a", FsNode.dir [("z", FsNode.file "x")])]) ["a"]
      "U").2.2.1 [("z", FsNode.file "x")] rfl (by simp),
   (c5_create_collection (FsNode.dir [("a", FsNode.file "x")]) ["a"]
      "U").2.1 "x" rfl,
   (c5_create_collection (FsNode.dir [("d", FsNode.dir [])]) ["d"]
      "U").2.2.2.1 rfl⟩

/-- Counterexample to C5 as stated: the path ["a","b"] is absent (so the
claim demands success), but its ancestor "a" is an existing regular file;
`fs::create_dir_all` fails and `new_collection` returns a non-conflict I/O
error instead of succeeding. -/
theorem c5_counterexample :
    lookupNode (FsNode.dir [("a", FsNode.file "x")]) ["a", "b"] = none ∧
    newCollection (FsNode.dir [("a", FsNode.file "x")]) ["a", "b"] "U"
      = Except.error NcErr.ioErr :=
  ⟨rfl, rfl⟩

end Simdex
